import Mathlib

/-!
Verification of the snowflake-mirrorer core (src/snowflake.py).

The Python code computes with IEEE floats; we shallowly embed it over an
arbitrary linear ordered field `R` (instantiated with `ℝ` in the theorems),
treating the float arithmetic as exact field arithmetic.  The math-library
functions the code calls (`math.pi`, `math.cos`, `math.sin`, `math.hypot`,
`math.atan2`) are passed as parameters (`pi`, `cosf`, `sinf`, `hypotf`,
`atan2f`) and instantiated with `Real.pi`, `Real.cos`, `Real.sin`, and the
real hypotenuse / argument functions in the theorems.

Python `dict` keys: class `PolarPoint` defines `__hash__` but no `__eq__`,
so Python key equality is object identity.  We therefore model
`Snowflake.pixels` as an insertion-ordered association list of entries
`(object id, PolarPoint value, pixel value)`, keyed by the object id.
-/

section Embedding

variable (R : Type) [LinearOrderedField R] [FloorRing R] (pi : R)

/-- Source constant `SCREEN_HEIGHT = 650`. -/
def SCREEN_HEIGHT : Int := 650

/-- Source constant `RADIANS_IN_CIRCLE = 2 * math.pi`. -/
def RADIANS_IN_CIRCLE : R := 2 * pi

/-- Source constant `CARTESIAN_ORIGIN = (0, SCREEN_HEIGHT)`. -/
def CARTESIAN_ORIGIN : Int × Int := (0, SCREEN_HEIGHT)

/-- Source constant `CARTESIAN_SIGNS = (1, -1)`. -/
def CARTESIAN_SIGNS : Int × Int := (1, -1)

/-- Source constant `LINE_THICKNESS = 4`. -/
def LINE_THICKNESS : R := 4

/-- Source constant `VALID_SIZES = (2, 4, 6, 8, 10, 12)`. -/
def VALID_SIZES : List Nat := [2, 4, 6, 8, 10, 12]

/-- Source constant `SNOWFLAKE_SEGMENT_RADIUS = 200`. -/
def SNOWFLAKE_SEGMENT_RADIUS : R := 200

/-- Source constant `SNOWFLAKE_SEGMENT_POSITION = (210, 325)`. -/
def SNOWFLAKE_SEGMENT_POSITION : Int × Int := (210, 325)

/-- Source constant `SNOWFLAKE_RADIUS = 150`. -/
def SNOWFLAKE_RADIUS : R := 150

/-- Source constant `SNOWFLAKE_POSITION = (600, 325)`. -/
def SNOWFLAKE_POSITION : Int × Int := (600, 325)

/-- Source constant `ROTATION_SPEED = -0.008`. -/
def ROTATION_SPEED : R := -(8 / 1000)

/-- Source constant `DEFAULT_SIZE = 6`. -/
def DEFAULT_SIZE : Nat := 6

/-- Source constant `DEFAULT_MIRROR = True`. -/
def DEFAULT_MIRROR : Bool := true

/-- Source constant `SNOWFLAKE_COLOR = (64, 64, 255)`. -/
def SNOWFLAKE_COLOR : Nat × Nat × Nat := (64, 64, 255)

/-- Source constant `BACKGROUND_COLOR = (124, 124, 154)`. -/
def BACKGROUND_COLOR : Nat × Nat × Nat := (124, 124, 154)

/-- Python float modulo `x % p` (for the program always with `p = 2 * pi > 0`):
`x - p * floor (x / p)`, the representative of `x` in `[0, p)`. -/
def pyMod (x p : R) : R := x - p * ⌊x / p⌋

/-- Python `int(x)`: truncation of a float toward zero. -/
def int_trunc (x : R) : Int := if 0 ≤ x then ⌊x⌋ else -⌊-x⌋

/-- Source function `to_rectangular(theta, radius, *, polar_origin,
cartesian_origin, cartesian_signs)`.  `cosf` and `sinf` stand for `math.cos`
and `math.sin`.  At the only call sites, `cartesian_origin` and
`cartesian_signs` are left at their defaults `CARTESIAN_ORIGIN` and
`CARTESIAN_SIGNS`. -/
def to_rectangular (cosf sinf : R → R) (theta radius : R)
    (polar_origin cartesian_origin cartesian_signs : Int × Int) : Int × Int :=
  let relative_x := radius * cosf theta
  let relative_y := radius * sinf theta
  let relative_x2 := (polar_origin.1 : R) + relative_x
  let relative_y2 := (polar_origin.2 : R) + relative_y
  let relative_x3 := (cartesian_signs.1 : R) * relative_x2 + (cartesian_origin.1 : R)
  let relative_y3 := (cartesian_signs.2 : R) * relative_y2 + (cartesian_origin.2 : R)
  (int_trunc R relative_x3, int_trunc R relative_y3)

/-- Class `PolarPoint`: the two data attributes, in the order of the
`__init__` parameters `(radius, theta)`. -/
structure PolarPoint where
  radius : R
  theta : R

/-- Method `PolarPoint.__hash__`: `hash((self.theta, self.radius))`; the
hash is a function of exactly the pair of field values. -/
def PolarPoint.py_hash (p : PolarPoint R) : R × R := (p.theta, p.radius)

/-- Classmethod `PolarPoint.from_rectangular(point, *, origin)`.  `hypotf`
stands for `math.hypot` and `atan2f` for `math.atan2` (with `atan2f y x`
matching `math.atan2(y, x)`). -/
def PolarPoint.from_rectangular (hypotf atan2f : R → R → R)
    (point origin : Int × Int) : PolarPoint R :=
  let relative_x : R := (point.1 : R) - (origin.1 : R)
  let relative_y : R := (point.2 : R) - (origin.2 : R)
  let radius := hypotf relative_x relative_y
  let theta_radians := atan2f relative_y relative_x
  let theta := pyMod R theta_radians (RADIANS_IN_CIRCLE R pi)
  ⟨radius, theta⟩

/-- Class `SnowflakeSegment`: data attributes. -/
structure SnowflakeSegment where
  radius : R
  size : Nat
  origin : Int × Int
  centered_angle : R

/-- Method `SnowflakeSegment.contains_point`. -/
def SnowflakeSegment.contains_point (seg : SnowflakeSegment R) (point : PolarPoint R) : Bool :=
  let angle_arc := RADIANS_IN_CIRCLE R pi / (seg.size : R)
  let angle_begin := RADIANS_IN_CIRCLE R pi - angle_arc / 2
  let angle_end := angle_arc / 2
  if point.theta < angle_begin ∧ angle_end < point.theta then false
  else if seg.radius < point.radius ∨ point.radius < 0 then false
  else true

/-- Method `SnowflakeSegment.get_region(*, update)`.  The result models the
four arguments `(x_1, y_1, x_2, y_2)` passed to `pygame.Rect` (which pygame
interprets as left, top, width, height, truncated to integers); we return
them as the pair of pairs `((x_1, y_1), (x_2, y_2))`.  `sinf` stands for
`math.sin`.  The Python `VALID_SIZES.index` call assumes `self.size` is a
member of `VALID_SIZES` (it raises otherwise); `List.indexOf` is used here. -/
def SnowflakeSegment.get_region (sinf : R → R) (seg : SnowflakeSegment R)
    (update : Bool) : (R × R) × (R × R) :=
  let x_1 : R := (seg.origin.1 : R)
  let origin_y : R := (seg.origin.2 : R)
  let current_size := (((VALID_SIZES.indexOf seg.size : Int) - 1) % (VALID_SIZES.length : Int)).toNat
  let min_size := min seg.size (VALID_SIZES.getD current_size 0)
  let arc := RADIANS_IN_CIRCLE R pi / (min_size : R)
  let height := sinf (arc / 2) * seg.radius
  let y_1 := origin_y - height
  let x_2 := if update then x_1 + seg.radius else seg.radius
  let y_2 := if update then origin_y + height else height * 2
  ((x_1 - LINE_THICKNESS R, y_1 - LINE_THICKNESS R),
   (x_2 + LINE_THICKNESS R * 2, y_2 + LINE_THICKNESS R * 2))

/-- One entry of the Python dict `Snowflake.pixels`: the key object's
identity, the key object's `PolarPoint` value, and the stored pixel value. -/
abbrev PixelEntry : Type := Nat × PolarPoint R × Int

/-- Class `Snowflake`: data attributes (`current_angle` models
`_current_angle`).  `pixels` is the dict in insertion order; distinct live
Python objects have distinct ids, so a well-formed dict has pairwise
distinct entry ids. -/
structure Snowflake where
  radius : R
  size : Nat
  origin : Int × Int
  mirror : Bool
  pixels : List (PixelEntry R)
  current_angle : R

/-- The list of key object ids of a pixel dict. -/
def pixel_ids (px : List (PixelEntry R)) : List Nat := px.map (fun e => e.1)

/-- Python dict assignment `self.pixels[point] = value` for the identity-keyed
dict: an existing entry with the same key object keeps its position and gets
the new value; a new key object is appended. -/
def dict_set (px : List (PixelEntry R)) (pid : Nat) (p : PolarPoint R) (v : Int) :
    List (PixelEntry R) :=
  if px.any (fun e => e.1 == pid) then
    px.map (fun e => if e.1 == pid then (e.1, e.2.1, v) else e)
  else
    px ++ [(pid, p, v)]

/-- Method `Snowflake.set_pixel(point, value)`; `pid` is the identity of the
`point` object. -/
def Snowflake.set_pixel (sf : Snowflake R) (pid : Nat) (point : PolarPoint R) (value : Int) :
    Snowflake R :=
  { sf with pixels := dict_set R sf.pixels pid point value }

/-- Method `Snowflake.clear_pixels()`. -/
def Snowflake.clear_pixels (sf : Snowflake R) : Snowflake R :=
  { sf with pixels := [] }

/-- The rescaled point built in `Snowflake.clear_pixels_outside`:
`PolarPoint(pixel.radius * segment.radius / self.radius, pixel.theta)`. -/
def rescaled_point (seg : SnowflakeSegment R) (sf_radius : R) (p : PolarPoint R) :
    PolarPoint R :=
  ⟨p.radius * seg.radius / sf_radius, p.theta⟩

/-- Python `dict.pop(key)` for the identity-keyed dict: remove the (unique)
entry whose key object is `pid`. -/
def dict_pop (px : List (PixelEntry R)) (pid : Nat) : List (PixelEntry R) :=
  px.eraseP (fun e => e.1 == pid)

/-- Method `Snowflake.clear_pixels_outside(segment)`: first collect the list
`to_delete` of stored entries whose rescaled point fails
`segment.contains_point`, then pop each collected key. -/
def Snowflake.clear_pixels_outside (sf : Snowflake R) (segment : SnowflakeSegment R) :
    Snowflake R :=
  let to_delete := sf.pixels.filter (fun e =>
    !(segment.contains_point R pi (rescaled_point R segment sf.radius e.2.1)))
  { sf with pixels := to_delete.foldl (fun px e => dict_pop R px e.1) sf.pixels }

/-- Method `Snowflake.rotate(angle)`. -/
def Snowflake.rotate (sf : Snowflake R) (angle : R) : Snowflake R :=
  { sf with current_angle := pyMod R (sf.current_angle + angle) (RADIANS_IN_CIRCLE R pi) }

/-- Method `Snowflake.get_region(*, update)`, modeled like
`SnowflakeSegment.get_region` as the pair of pairs of `pygame.Rect`
arguments. -/
def Snowflake.get_region (sf : Snowflake R) (update : Bool) : (R × R) × (R × R) :=
  let origin_x : R := (sf.origin.1 : R)
  let origin_y : R := (sf.origin.2 : R)
  let x_1 := origin_x - sf.radius
  let y_1 := origin_y - sf.radius
  let x_2 := if update then origin_x + sf.radius else sf.radius * 2
  let y_2 := if update then origin_y + sf.radius else sf.radius * 2
  ((x_1 - LINE_THICKNESS R, y_1 - LINE_THICKNESS R),
   (x_2 + LINE_THICKNESS R * 2, y_2 + LINE_THICKNESS R * 2))

/-- The placement angle `real_theta` computed by `Snowflake.draw_pixels` for
a stored pixel `p` and slot index `i`, including the final
`real_theta += self._current_angle`. -/
def Snowflake.real_theta (sf : Snowflake R) (p : PolarPoint R) (i : Nat) : R :=
  let arc := RADIANS_IN_CIRCLE R pi / (sf.size : R)
  let base :=
    if sf.mirror then
      if i % 2 = 0 then (i : R) * arc + p.theta else (i : R) * arc - p.theta
    else
      (i : R) * arc + p.theta
  base + sf.current_angle

/-- The list of placement angles produced by the slot loop
`for i in range(self.size)` of `Snowflake.draw_pixels` for one stored pixel. -/
def Snowflake.draw_pixels_angles (sf : Snowflake R) (p : PolarPoint R) : List R :=
  (List.range sf.size).map (sf.real_theta R pi p)

/-- The color chosen for a pixel by `Snowflake.draw_pixels` and
`Snowflake.draw_segment`: `SNOWFLAKE_COLOR if value == 1 else
BACKGROUND_COLOR`. -/
def pixel_color (value : Int) : Nat × Nat × Nat :=
  if value == 1 then SNOWFLAKE_COLOR else BACKGROUND_COLOR

/-- The mutable state of the `main` loop that the claims are about: the
`rotate` flag, the input `segment` and the output `snowflake`. -/
structure MainState where
  rotate : Bool
  segment : SnowflakeSegment R
  snowflake : Snowflake R

/-- The state set up by `main` before the loop: `rotate = True`, the segment
and snowflake built from the program constants, empty pixel dict, zero
rotation angle. -/
def initial_state : MainState R :=
  { rotate := true
    segment :=
      { radius := SNOWFLAKE_SEGMENT_RADIUS R
        size := DEFAULT_SIZE
        origin := SNOWFLAKE_SEGMENT_POSITION
        centered_angle := 0 }
    snowflake :=
      { radius := SNOWFLAKE_RADIUS R
        size := DEFAULT_SIZE
        origin := SNOWFLAKE_POSITION
        mirror := DEFAULT_MIRROR
        pixels := []
        current_angle := 0 } }

/-- The Tab key handler in `main`: cycle `snowflake.size` and `segment.size`
forward through `VALID_SIZES`, then `snowflake.clear_pixels_outside(segment)`. -/
def tab_transition (s : MainState R) : MainState R :=
  let current_size := (VALID_SIZES.indexOf s.snowflake.size + 1) % VALID_SIZES.length
  let new_size := VALID_SIZES.getD current_size 0
  let segment2 := { s.segment with size := new_size }
  let snowflake2 := { s.snowflake with size := new_size }
  { s with
    segment := segment2
    snowflake := snowflake2.clear_pixels_outside R pi segment2 }

/-- The point inserted by the cursor logic in `main` for a raw mouse position
`pos`: flip the y coordinate (`mouse_y = SCREEN_HEIGHT - mouse_y`), convert
to polar relative to the segment origin, then scale the radius by
`snowflake.radius / segment.radius`. -/
def drawn_point (hypotf atan2f : R → R → R) (s : MainState R) (pos : Int × Int) :
    PolarPoint R :=
  let polar_position := PolarPoint.from_rectangular R pi hypotf atan2f
    (pos.1, SCREEN_HEIGHT - pos.2) s.segment.origin
  ⟨polar_position.radius * (s.snowflake.radius / s.segment.radius), polar_position.theta⟩

/-- One atomic state change of the `main` loop: the four key handlers, the
cursor logic (with the segment containment test deciding acceptance), and
the per-frame rotation tick.  In `mouse_inside`, `pid` is the identity of
the freshly constructed `PolarPoint` object, hence distinct from every key
already stored in the dict. -/
inductive MainStep (hypotf atan2f : R → R → R) : MainState R → MainState R → Prop where
  | key_r (s : MainState R) :
      MainStep hypotf atan2f s { s with rotate := !s.rotate }
  | key_m (s : MainState R) :
      MainStep hypotf atan2f s
        { s with snowflake := { s.snowflake with mirror := !s.snowflake.mirror } }
  | key_tab (s : MainState R) :
      MainStep hypotf atan2f s (tab_transition R pi s)
  | key_delete (s : MainState R) :
      MainStep hypotf atan2f s { s with snowflake := s.snowflake.clear_pixels R }
  | mouse_inside (s : MainState R) (pos : Int × Int) (pid : Nat)
      (hin : s.segment.contains_point R pi
        (PolarPoint.from_rectangular R pi hypotf atan2f
          (pos.1, SCREEN_HEIGHT - pos.2) s.segment.origin) = true)
      (hfresh : pid ∉ pixel_ids R s.snowflake.pixels) :
      MainStep hypotf atan2f s
        { s with snowflake :=
            s.snowflake.set_pixel R pid (drawn_point R pi hypotf atan2f s pos) 1 }
  | mouse_outside (s : MainState R) (pos : Int × Int)
      (hout : s.segment.contains_point R pi
        (PolarPoint.from_rectangular R pi hypotf atan2f
          (pos.1, SCREEN_HEIGHT - pos.2) s.segment.origin) = false) :
      MainStep hypotf atan2f s s
  | tick (s : MainState R) (hrot : s.rotate = true) :
      MainStep hypotf atan2f s
        { s with snowflake := s.snowflake.rotate R pi (ROTATION_SPEED R) }

/-- The states the `main` loop can reach from its initial state. -/
inductive Reachable (hypotf atan2f : R → R → R) : MainState R → Prop where
  | init : Reachable hypotf atan2f (initial_state R)
  | step (s t : MainState R) (hs : Reachable hypotf atan2f s)
      (hst : MainStep R pi hypotf atan2f s t) : Reachable hypotf atan2f t

end Embedding

/-!
In the theorems below, the parameters `hypotf` and `atan2f` are
instantiated with the real functions `fun x y => Real.sqrt (x ^ 2 + y ^ 2)`
(which is `math.hypot`) and `fun y x => Complex.arg ⟨x, y⟩` (the argument
of the complex number `x + y*I`, in `[-pi, pi]`, matching `math.atan2(y, x)`
including `atan2(0, 0) = 0`).  They are written inline because a plain `def`
wrapping `Real.sqrt` or `Complex.arg` has no executable code.
-/

/-- Modelled from the spec wording of claim C1 (not from the source): the
angle `theta` lies within the arc `[c - half, c + half]`, interpreted modulo
`2 * pi`. -/
def in_arc_spec (c half theta : ℝ) : Prop :=
  ∃ k : ℤ, |theta - (c + 2 * Real.pi * k)| ≤ half

/-- Modelled from the spec wording of claim C1 (not from the source): the
containment predicate the claim describes, with the arc centered at
`centered_angle`. -/
def contains_point_spec (seg : SnowflakeSegment ℝ) (p : PolarPoint ℝ) : Prop :=
  (0 ≤ p.radius ∧ p.radius ≤ seg.radius) ∧
    in_arc_spec seg.centered_angle (Real.pi / (seg.size : ℝ)) p.theta

/-! ### Helper lemmas about the Python float modulo -/

/-- `pyMod x p` lies in `[0, p)` when `p > 0`. -/
lemma pyMod_mem_Ico (x p : ℝ) (hp : 0 < p) : 0 ≤ pyMod ℝ x p ∧ pyMod ℝ x p < p := by
  have hfr : pyMod ℝ x p = p * Int.fract (x / p) := by
    unfold pyMod Int.fract
    field_simp
  constructor
  · rw [hfr]
    exact mul_nonneg hp.le (Int.fract_nonneg _)
  · rw [hfr]
    calc p * Int.fract (x / p) < p * 1 := by
          exact mul_lt_mul_of_pos_left (Int.fract_lt_one _) hp
    _ = p := mul_one p

/-- Reducing the first summand modulo `p` does not change the residue of a
sum modulo `p`. -/
lemma pyMod_add_left (x y p : ℝ) : pyMod ℝ (pyMod ℝ x p + y) p = pyMod ℝ (x + y) p := by
  rcases eq_or_ne p 0 with h0 | h0
  · simp [pyMod, h0]
  · unfold pyMod
    have h1 : (x - p * ⌊x / p⌋ + y) / p = (x + y) / p - (⌊x / p⌋ : ℝ) := by
      field_simp
      ring
    rw [h1, Int.floor_sub_int]
    push_cast
    ring

/-- Claim C7: for all angles `a` and `b` and every starting rotation state,
`rotate(a)` followed by `rotate(b)` leaves the accumulated rotation angle
equal (indeed exactly equal, hence equal mod `2*pi`) to that after a single
`rotate(a + b)`; and after every `rotate` call, including with negative
deltas, the stored rotation angle lies in `[0, 2*pi)`. -/
theorem c7_rotate_additive_and_wraps (sf : Snowflake ℝ) (a b : ℝ) :
    ((sf.rotate ℝ Real.pi a).rotate ℝ Real.pi b).current_angle
        = (sf.rotate ℝ Real.pi (a + b)).current_angle
      ∧ 0 ≤ (sf.rotate ℝ Real.pi a).current_angle
      ∧ (sf.rotate ℝ Real.pi a).current_angle < 2 * Real.pi := by
  refine ⟨?_, ?_, ?_⟩
  · show pyMod ℝ (pyMod ℝ (sf.current_angle + a) (RADIANS_IN_CIRCLE ℝ Real.pi) + b)
        (RADIANS_IN_CIRCLE ℝ Real.pi)
      = pyMod ℝ (sf.current_angle + (a + b)) (RADIANS_IN_CIRCLE ℝ Real.pi)
    rw [pyMod_add_left, add_assoc]
  · exact (pyMod_mem_Ico _ _ (by unfold RADIANS_IN_CIRCLE; exact Real.two_pi_pos)).1
  · exact (pyMod_mem_Ico _ _ (by unfold RADIANS_IN_CIRCLE; exact Real.two_pi_pos)).2

/-! ### Claim C3: replication in clone mode -/

/-- Claim C3: for every stored pixel and size `N`, the replication step of
`draw_pixels` with `mirror = false` places exactly `N` copies; the copy for
slot `i` is at angle `i * (2*pi/N) + theta` plus the current rotation angle,
and consecutive copies are separated by exactly `2*pi/N` radians. -/
theorem c3_clone_replication (sf : Snowflake ℝ) (p : PolarPoint ℝ)
    (hmirror : sf.mirror = false) :
    (sf.draw_pixels_angles ℝ Real.pi p).length = sf.size
      ∧ (∀ i, i < sf.size →
          (sf.draw_pixels_angles ℝ Real.pi p).getD i 0
            = (i : ℝ) * (2 * Real.pi / (sf.size : ℝ)) + p.theta + sf.current_angle)
      ∧ (∀ i, i + 1 < sf.size →
          (sf.draw_pixels_angles ℝ Real.pi p).getD (i + 1) 0
              - (sf.draw_pixels_angles ℝ Real.pi p).getD i 0
            = 2 * Real.pi / (sf.size : ℝ)) := by
  have hget : ∀ i, i < sf.size →
      (sf.draw_pixels_angles ℝ Real.pi p).getD i 0
        = (i : ℝ) * (2 * Real.pi / (sf.size : ℝ)) + p.theta + sf.current_angle := by
    intro i hi
    unfold Snowflake.draw_pixels_angles
    rw [List.getD_eq_getElem?_getD, List.getElem?_map, List.getElem?_range hi]
    simp [Snowflake.real_theta, RADIANS_IN_CIRCLE, hmirror]
  refine ⟨by simp [Snowflake.draw_pixels_angles], hget, ?_⟩
  intro i hi
  rw [hget (i + 1) hi, hget i (by omega)]
  push_cast
  ring

/-- Concrete snowflake used in the witness of claim C3. -/
def c3_sf : Snowflake ℝ :=
  { radius := 150, size := 6, origin := (600, 325), mirror := false, pixels := [],
    current_angle := 0 }

/-- Concrete pixel used in the witness of claim C3. -/
def c3_pt : PolarPoint ℝ := ⟨100, 1⟩

/-- Witness for claim C3 at a concrete snowflake of size 6 in clone mode. -/
theorem c3_clone_replication_witness :
    c3_sf.mirror = false
      ∧ ((c3_sf.draw_pixels_angles ℝ Real.pi c3_pt).length = c3_sf.size
          ∧ (∀ i, i < c3_sf.size →
              (c3_sf.draw_pixels_angles ℝ Real.pi c3_pt).getD i 0
                = (i : ℝ) * (2 * Real.pi / (c3_sf.size : ℝ)) + c3_pt.theta
                    + c3_sf.current_angle)
          ∧ (∀ i, i + 1 < c3_sf.size →
              (c3_sf.draw_pixels_angles ℝ Real.pi c3_pt).getD (i + 1) 0
                  - (c3_sf.draw_pixels_angles ℝ Real.pi c3_pt).getD i 0
                = 2 * Real.pi / (c3_sf.size : ℝ))) :=
  ⟨rfl, c3_clone_replication c3_sf c3_pt rfl⟩

/-! ### Claim C4: replication in mirror mode -/

/-- Amended claim C4: with `mirror = true`, for every odd slot index `i`,
the placement angles of slot `i` and slot `i - 1` sum to
`(2*i - 1) * (2*pi/N)` plus twice the rotation offset — that is, they are
angular mirror images about the bisector angle `(i - 1/2) * (2*pi/N)`, not
about `i * (2*pi/N)` as the original claim stated. -/
theorem c4_mirror_pairs (sf : Snowflake ℝ) (p : PolarPoint ℝ) (i : Nat)
    (hmirror : sf.mirror = true) (heven : sf.size % 2 = 0) (hodd : i % 2 = 1)
    (hi : i < sf.size) :
    sf.real_theta ℝ Real.pi p i + sf.real_theta ℝ Real.pi p (i - 1)
      = (2 * (i : ℝ) - 1) * (2 * Real.pi / (sf.size : ℝ)) + 2 * sf.current_angle := by
  have h1 : 1 ≤ i := by omega
  have hprev : (i - 1) % 2 = 0 := by omega
  have hcast : ((i - 1 : ℕ) : ℝ) = (i : ℝ) - 1 := by
    push_cast [Nat.cast_sub h1]
    ring
  have hne : ¬ i % 2 = 0 := by omega
  simp [Snowflake.real_theta, RADIANS_IN_CIRCLE, hmirror, hne, hprev, hcast]
  ring

/-- Concrete snowflake used for claim C4: size 2, mirror mode, rotation 0. -/
def c4_sf : Snowflake ℝ :=
  { radius := 150, size := 2, origin := (600, 325), mirror := true, pixels := [],
    current_angle := 0 }

/-- Concrete pixel used for claim C4: `theta = 0`. -/
def c4_pt : PolarPoint ℝ := ⟨100, 0⟩

/-- Counterexample to claim C4 as stated: at `size N = 2`, odd slot `i = 1`,
pixel angle `theta = 0` and rotation 0, the two placement angles (`pi` and
`0`) do not sum to `2 * i * (2*pi/N) = 2*pi` modulo `2*pi`, because their sum
is `pi`. -/
theorem c4_counterexample :
    ¬ ∃ k : ℤ,
      (c4_sf.real_theta ℝ Real.pi c4_pt 1 + c4_sf.real_theta ℝ Real.pi c4_pt 0)
          - 2 * (1 : ℝ) * (2 * Real.pi / ((2 : ℕ) : ℝ))
        = (k : ℝ) * (2 * Real.pi) := by
  rintro ⟨k, hk⟩
  have hsum : c4_sf.real_theta ℝ Real.pi c4_pt 1 + c4_sf.real_theta ℝ Real.pi c4_pt 0
      = Real.pi := by
    simp [Snowflake.real_theta, RADIANS_IN_CIRCLE, c4_sf, c4_pt]
  rw [hsum] at hk
  have hk2 : (2 * (k : ℝ) + 1) * Real.pi = 0 := by
    push_cast at hk
    nlinarith [hk]
  have hk3 : (2 * (k : ℝ) + 1) = 0 := by
    rcases mul_eq_zero.mp hk2 with h | h
    · exact h
    · exact absurd h Real.pi_ne_zero
  have hk4 : 2 * k + 1 = 0 := by exact_mod_cast hk3
  omega

/-- Witness for the amended claim C4 at `size N = 2`, slot `i = 1`. -/
theorem c4_mirror_pairs_witness :
    c4_sf.mirror = true ∧ c4_sf.size % 2 = 0 ∧ 1 % 2 = 1 ∧ 1 < c4_sf.size
      ∧ c4_sf.real_theta ℝ Real.pi c4_pt 1 + c4_sf.real_theta ℝ Real.pi c4_pt (1 - 1)
          = (2 * (1 : ℕ) - 1) * (2 * Real.pi / (c4_sf.size : ℝ))
              + 2 * c4_sf.current_angle :=
  ⟨rfl, by decide, by decide, by decide,
    by
      have h := c4_mirror_pairs c4_sf c4_pt 1 rfl (by decide) (by decide) (by decide)
      simpa using h⟩

/-! ### Claim C1: segment containment -/

/-- For `0 < h ≤ pi/2` and `theta` already normalized to `[0, 2*pi)`, lying
in the arc `[-h, h]` around angle `0` modulo `2*pi` is the same as lying in
`[0, h]` or in `[2*pi - h, 2*pi)`. -/
lemma in_arc_spec_zero_iff (h θ : ℝ) (hh0 : 0 < h) (hh : h ≤ Real.pi / 2)
    (h0 : 0 ≤ θ) (h2 : θ < 2 * Real.pi) :
    in_arc_spec 0 h θ ↔ (θ ≤ h ∨ 2 * Real.pi - h ≤ θ) := by
  unfold in_arc_spec
  constructor
  · rintro ⟨k, hk⟩
    rw [abs_le] at hk
    have hπ := Real.pi_pos
    have hA : (k : ℝ) * (2 * Real.pi) ≤ θ + h := by
      have := hk.1
      push_cast at this ⊢
      linarith
    have hB : θ + h < 2 * (2 * Real.pi) := by linarith
    have hC : θ - h ≤ (k : ℝ) * (2 * Real.pi) := by
      have := hk.2
      push_cast at this ⊢
      linarith
    have hD : (-1 : ℝ) * (2 * Real.pi) < θ - h := by linarith
    have hk2 : (k : ℝ) < 2 := by
      have := lt_of_le_of_lt hA hB
      exact (mul_lt_mul_right Real.two_pi_pos).mp this
    have hk1 : (-1 : ℝ) < (k : ℝ) := by
      have := lt_of_lt_of_le hD hC
      exact (mul_lt_mul_right Real.two_pi_pos).mp this
    have hk2i : k < 2 := by exact_mod_cast hk2
    have hk1i : (-1 : ℤ) < k := by exact_mod_cast hk1
    interval_cases k
    · left
      have := hk.2
      push_cast at this
      linarith
    · right
      have := hk.1
      push_cast at this
      linarith
  · rintro (h1 | h1)
    · refine ⟨0, ?_⟩
      rw [abs_le]
      push_cast
      constructor <;> linarith
    · refine ⟨1, ?_⟩
      rw [abs_le]
      push_cast
      constructor <;> linarith

/-- Amended claim C1: `contains_point` ignores `centered_angle`; for every
point with `theta` in `[0, 2*pi)` it returns `True` iff the radius lies in
`[0, segment.radius]` and `theta` lies within the arc
`[-half_arc, half_arc]` centered at angle `0` (interpreted modulo `2*pi`),
where `half_arc = pi/size`; points exactly on either the radial or the
angular edge are inside.  This matches the original claim exactly when
`centered_angle = 0`, the value used by the program. -/
theorem c1_contains_iff_arc (seg : SnowflakeSegment ℝ) (p : PolarPoint ℝ)
    (hsize : 2 ≤ seg.size) (h0 : 0 ≤ p.theta) (h2 : p.theta < 2 * Real.pi) :
    seg.contains_point ℝ Real.pi p = true
      ↔ ((0 ≤ p.radius ∧ p.radius ≤ seg.radius)
          ∧ in_arc_spec 0 (Real.pi / (seg.size : ℝ)) p.theta) := by
  have hNpos : (0 : ℝ) < (seg.size : ℝ) := by
    have : (0 : ℕ) < seg.size := by omega
    exact_mod_cast this
  have hπ := Real.pi_pos
  have hhalf_pos : 0 < Real.pi / (seg.size : ℝ) := div_pos hπ hNpos
  have hhalf_le : Real.pi / (seg.size : ℝ) ≤ Real.pi / 2 := by
    apply div_le_div_of_nonneg_left hπ.le
    · norm_num
    · exact_mod_cast hsize
  have harc := in_arc_spec_zero_iff (Real.pi / (seg.size : ℝ)) p.theta
    hhalf_pos hhalf_le h0 h2
  have hbool : seg.contains_point ℝ Real.pi p = true
      ↔ (¬(p.theta < 2 * Real.pi - Real.pi / (seg.size : ℝ)
            ∧ Real.pi / (seg.size : ℝ) < p.theta)
          ∧ ¬(seg.radius < p.radius ∨ p.radius < 0)) := by
    unfold SnowflakeSegment.contains_point RADIANS_IN_CIRCLE
    have e2 : 2 * Real.pi / (seg.size : ℝ) / 2 = Real.pi / (seg.size : ℝ) := by ring
    simp only [e2]
    split_ifs with ha hb
    · simp [ha]
    · simp [ha, hb]
    · simp [ha, hb]
  rw [hbool]
  constructor
  · rintro ⟨hangle, hrad⟩
    push_neg at hrad
    refine ⟨⟨hrad.2, hrad.1⟩, ?_⟩
    apply harc.mpr
    by_cases hA : p.theta < 2 * Real.pi - Real.pi / (seg.size : ℝ)
    · left
      by_contra hc
      exact hangle ⟨hA, lt_of_not_le hc⟩
    · right
      linarith [not_lt.mp hA]
  · rintro ⟨⟨hr0, hrR⟩, hin⟩
    refine ⟨?_, ?_⟩
    · rintro ⟨hA, hgt⟩
      rcases harc.mp hin with hle | hge
      · linarith
      · linarith
    · rintro (hbad | hbad) <;> linarith

/-- Counterexample to claim C1 as stated: for a segment with
`centered_angle = pi` and `size = 2`, the point at `theta = pi`,
`radius = 1` lies within the claimed arc
`[centered_angle - half_arc, centered_angle + half_arc]` and within the
radial bound, yet `contains_point` returns `False` — the code never reads
`centered_angle`. -/
theorem c1_counterexample :
    ¬ ((⟨1, 2, (0, 0), Real.pi⟩ : SnowflakeSegment ℝ).contains_point ℝ Real.pi
          (⟨1, Real.pi⟩ : PolarPoint ℝ) = true
        ↔ contains_point_spec (⟨1, 2, (0, 0), Real.pi⟩ : SnowflakeSegment ℝ)
            (⟨1, Real.pi⟩ : PolarPoint ℝ)) := by
  intro hiff
  have hπ := Real.pi_pos
  have hfalse : (⟨1, 2, (0, 0), Real.pi⟩ : SnowflakeSegment ℝ).contains_point ℝ Real.pi
      (⟨1, Real.pi⟩ : PolarPoint ℝ) = false := by
    unfold SnowflakeSegment.contains_point RADIANS_IN_CIRCLE
    rw [if_pos]
    constructor
    · show Real.pi < 2 * Real.pi - 2 * Real.pi / ((2 : ℕ) : ℝ) / 2
      norm_num
      linarith
    · show 2 * Real.pi / ((2 : ℕ) : ℝ) / 2 < Real.pi
      norm_num
      linarith
  have hspec : contains_point_spec (⟨1, 2, (0, 0), Real.pi⟩ : SnowflakeSegment ℝ)
      (⟨1, Real.pi⟩ : PolarPoint ℝ) := by
    refine ⟨⟨by norm_num, by norm_num⟩, ⟨0, ?_⟩⟩
    show |Real.pi - (Real.pi + 2 * Real.pi * ((0 : ℤ) : ℝ))| ≤ Real.pi / ((2 : ℕ) : ℝ)
    norm_num
    positivity
  rw [hfalse] at hiff
  simpa using hiff.mpr hspec

/-- Concrete segment for the witness of the amended claim C1: the program's
input segment geometry. -/
def c1_wit_seg : SnowflakeSegment ℝ :=
  { radius := 200, size := 6, origin := (210, 325), centered_angle := 0 }

/-- Concrete point for the witness of the amended claim C1. -/
def c1_wit_pt : PolarPoint ℝ := ⟨150, 0⟩

/-- Witness for the amended claim C1 at the program's segment geometry and
the point `theta = 0`, `radius = 150`. -/
theorem c1_contains_iff_arc_witness :
    2 ≤ c1_wit_seg.size ∧ (0 : ℝ) ≤ c1_wit_pt.theta
      ∧ c1_wit_pt.theta < 2 * Real.pi
      ∧ (c1_wit_seg.contains_point ℝ Real.pi c1_wit_pt = true
          ↔ ((0 ≤ c1_wit_pt.radius ∧ c1_wit_pt.radius ≤ c1_wit_seg.radius)
              ∧ in_arc_spec 0 (Real.pi / (c1_wit_seg.size : ℝ)) c1_wit_pt.theta)) :=
  ⟨by decide, le_refl 0,
    by
      show (0 : ℝ) < 2 * Real.pi
      exact Real.two_pi_pos,
    c1_contains_iff_arc c1_wit_seg c1_wit_pt (by decide) (le_refl 0)
      (by
        show (0 : ℝ) < 2 * Real.pi
        exact Real.two_pi_pos)⟩

/-! ### Claim C9: dirty regions -/

/-- Counterexample to claim C9 as stated: for the program's snowflake
(origin `(600, 325)`, radius `150`), the `update = true` call yields the
second pair `(758, 479)` while the `update = false` call yields origin
`(446, 171)` and sizes `(308, 308)`; `446 + 308 = 754 ≠ 758`, so the two
calls do not describe the same screen area. -/
theorem c9_counterexample :
    ¬ (((initial_state ℝ).snowflake.get_region ℝ true).2.1
        = ((initial_state ℝ).snowflake.get_region ℝ false).1.1
          + ((initial_state ℝ).snowflake.get_region ℝ false).2.1) := by
  unfold initial_state Snowflake.get_region
  norm_num [SNOWFLAKE_RADIUS, SNOWFLAKE_POSITION, LINE_THICKNESS]

/-- Amended claim C9: for both the snowflake and the segment, the two
`get_region` calls agree on the top-left corner, but the second pair of the
`update = true` call exceeds the far corner described by the
`update = false` origin-plus-size box by exactly `LINE_THICKNESS` in each
coordinate (the code adds `2 * LINE_THICKNESS` to an absolute coordinate
where symmetric padding would require adding it to a width). -/
theorem c9_region_modes :
    (∀ sf : Snowflake ℝ,
      (sf.get_region ℝ true).1 = (sf.get_region ℝ false).1
        ∧ (sf.get_region ℝ true).2.1
            = (sf.get_region ℝ false).1.1 + (sf.get_region ℝ false).2.1
              + LINE_THICKNESS ℝ
        ∧ (sf.get_region ℝ true).2.2
            = (sf.get_region ℝ false).1.2 + (sf.get_region ℝ false).2.2
              + LINE_THICKNESS ℝ)
    ∧ (∀ seg : SnowflakeSegment ℝ,
      (seg.get_region ℝ Real.pi Real.sin true).1 = (seg.get_region ℝ Real.pi Real.sin false).1
        ∧ (seg.get_region ℝ Real.pi Real.sin true).2.1
            = (seg.get_region ℝ Real.pi Real.sin false).1.1
              + (seg.get_region ℝ Real.pi Real.sin false).2.1 + LINE_THICKNESS ℝ
        ∧ (seg.get_region ℝ Real.pi Real.sin true).2.2
            = (seg.get_region ℝ Real.pi Real.sin false).1.2
              + (seg.get_region ℝ Real.pi Real.sin false).2.2 + LINE_THICKNESS ℝ) := by
  constructor
  · intro sf
    unfold Snowflake.get_region
    refine ⟨rfl, ?_, ?_⟩ <;> simp <;> ring
  · intro seg
    unfold SnowflakeSegment.get_region
    refine ⟨rfl, ?_, ?_⟩ <;> simp <;> ring

/-! ### Claim C2: PolarPoint equality and dict keys -/

/-- Concrete point value used for claim C2: `PolarPoint(1, 0)`. -/
def c2_pt : PolarPoint ℝ := ⟨1, 0⟩

/-- Evaluation for claim C2 at the failing input: two `PolarPoint` objects
with identical field values (the object with id 0 and the object with id 1,
both holding `radius = 1, theta = 0`) are inserted by two `set_pixel` calls.
Because the class defines `__hash__` but no `__eq__`, Python compares dict
keys by object identity, so the second insertion does not overwrite the
first: the dict ends with two entries (whose hashes agree).  The claim
(equal fields ⟹ same key, overwrite) fails. -/
theorem c2_identity_keys_duplicate :
    (((initial_state ℝ).snowflake.set_pixel ℝ 0 c2_pt 1).set_pixel ℝ 1 c2_pt 1).pixels
        = [(0, c2_pt, 1), (1, c2_pt, 1)]
      ∧ c2_pt.py_hash ℝ = (⟨1, 0⟩ : PolarPoint ℝ).py_hash ℝ := by
  constructor
  · rfl
  · rfl

/-! ### Helper lemmas about the identity-keyed pixel dict -/

/-- Popping a key from a dict with pairwise distinct ids is filtering that
id out. -/
lemma dict_pop_eq_filter (px : List (PixelEntry ℝ)) (pid : ℕ)
    (h : (pixel_ids ℝ px).Nodup) :
    dict_pop ℝ px pid = px.filter (fun e => !(e.1 == pid)) := by
  induction px with
  | nil => rfl
  | cons a t ih =>
    simp only [pixel_ids, List.map_cons, List.nodup_cons] at h
    have ht := ih (by simpa [pixel_ids] using h.2)
    unfold dict_pop at ht ⊢
    rw [List.eraseP_cons, List.filter_cons]
    by_cases ha : a.1 = pid
    · have hfix : ∀ e ∈ t, (!(e.1 == pid)) = true := by
        intro e he
        have hne : e.1 ≠ pid := by
          intro hc
          exact h.1 (List.mem_map.mpr ⟨e, he, by rw [hc, ha]⟩)
        simpa using hne
      have hfilter : t.filter (fun e => !(e.1 == pid)) = t := List.filter_eq_self.mpr hfix
      simp [ha, hfilter]
    · have hb : (a.1 == pid) = false := by simpa using ha
      simp [hb, ht]

/-- Folding `dict_pop` over a list of entries filters out all their ids. -/
lemma foldl_pop_eq_filter (ds px : List (PixelEntry ℝ))
    (h : (pixel_ids ℝ px).Nodup) :
    ds.foldl (fun acc e => dict_pop ℝ acc e.1) px
      = px.filter (fun e => !(ds.any (fun d => e.1 == d.1))) := by
  induction ds generalizing px with
  | nil => simp
  | cons d ds ih =>
    rw [List.foldl_cons, dict_pop_eq_filter px d.1 h]
    have h2 : (pixel_ids ℝ (px.filter (fun e => !(e.1 == d.1)))).Nodup := by
      apply List.Nodup.sublist _ h
      exact (List.filter_sublist px).map (fun e => e.1)
    rw [ih _ h2, List.filter_filter]
    apply List.filter_congr
    intro e _
    cases hq : (e.1 == d.1) <;> simp [hq]

/-- The result of the `to_delete` fold in `clear_pixels_outside` is a
sublist of the original dict (no `Nodup` assumption needed). -/
lemma foldl_pop_sublist (ds px : List (PixelEntry ℝ)) :
    (ds.foldl (fun acc e => dict_pop ℝ acc e.1) px).Sublist px := by
  induction ds generalizing px with
  | nil => exact List.Sublist.refl px
  | cons d ds ih =>
    rw [List.foldl_cons]
    exact (ih (dict_pop ℝ px d.1)).trans (List.eraseP_sublist px)

/-- `clear_pixels_outside` keeps the other state fields unchanged. -/
@[simp] lemma clear_pixels_outside_radius (sf : Snowflake ℝ) (seg : SnowflakeSegment ℝ) :
    (sf.clear_pixels_outside ℝ Real.pi seg).radius = sf.radius := rfl

/-- Characterization of `clear_pixels_outside` on a well-formed dict: it is
exactly the filter by the rescaled containment test, in order. -/
lemma clear_pixels_outside_eq_filter (sf : Snowflake ℝ) (seg : SnowflakeSegment ℝ)
    (h : (pixel_ids ℝ sf.pixels).Nodup) :
    (sf.clear_pixels_outside ℝ Real.pi seg).pixels
      = sf.pixels.filter (fun e =>
          seg.contains_point ℝ Real.pi (rescaled_point ℝ seg sf.radius e.2.1)) := by
  show List.foldl (fun px e => dict_pop ℝ px e.1) sf.pixels
      (sf.pixels.filter (fun e =>
        !(seg.contains_point ℝ Real.pi (rescaled_point ℝ seg sf.radius e.2.1)))) = _
  rw [foldl_pop_eq_filter _ _ h]
  apply List.filter_congr
  intro e he
  cases hP : seg.contains_point ℝ Real.pi (rescaled_point ℝ seg sf.radius e.2.1) with
  | false =>
    have hmem : e ∈ sf.pixels.filter (fun d =>
        !(seg.contains_point ℝ Real.pi (rescaled_point ℝ seg sf.radius d.2.1))) := by
      rw [List.mem_filter]
      exact ⟨he, by simp [hP]⟩
    have hany : (sf.pixels.filter (fun d =>
        !(seg.contains_point ℝ Real.pi (rescaled_point ℝ seg sf.radius d.2.1)))).any
          (fun d => e.1 == d.1) = true := by
      rw [List.any_eq_true]
      exact ⟨e, hmem, by simp⟩
    simp [hany]
  | true =>
    have hany : (sf.pixels.filter (fun d =>
        !(seg.contains_point ℝ Real.pi (rescaled_point ℝ seg sf.radius d.2.1)))).any
          (fun d => e.1 == d.1) = false := by
      rw [List.any_eq_false]
      intro d hd
      rw [List.mem_filter] at hd
      intro hbeq
      have hid : e.1 = d.1 := by simpa using hbeq
      have hed : e = d := List.inj_on_of_nodup_map h he hd.1 hid
      rw [← hed] at hd
      simp [hP] at hd
    simp [hany]

/-! ### Claim C5: pruning pixels outside the segment -/

/-- Claim C5: `clear_pixels_outside(segment)` removes exactly those stored
pixels whose radius rescaled into the segment's coordinate space together
with the unchanged theta fails `segment.contains_point`, leaving every other
entry (key and value, in order) unchanged — the result is the filter of the
pixel dict by the rescaled containment test; and after the Tab size-change
transition every remaining stored pixel is one of the previously stored
pixels and rescales to a point inside the new segment. -/
theorem c5_clear_pixels_outside_exact (s : MainState ℝ)
    (h : (pixel_ids ℝ s.snowflake.pixels).Nodup) :
    (s.snowflake.clear_pixels_outside ℝ Real.pi s.segment).pixels
        = s.snowflake.pixels.filter (fun e =>
            s.segment.contains_point ℝ Real.pi
              (rescaled_point ℝ s.segment s.snowflake.radius e.2.1))
      ∧ ∀ e ∈ (tab_transition ℝ Real.pi s).snowflake.pixels,
          e ∈ s.snowflake.pixels
          ∧ (tab_transition ℝ Real.pi s).segment.contains_point ℝ Real.pi
              (rescaled_point ℝ (tab_transition ℝ Real.pi s).segment
                s.snowflake.radius e.2.1) = true := by
  refine ⟨clear_pixels_outside_eq_filter s.snowflake s.segment h, ?_⟩
  intro e he
  have hsf : (tab_transition ℝ Real.pi s).snowflake
      = Snowflake.clear_pixels_outside ℝ Real.pi
          { s.snowflake with
              size := VALID_SIZES.getD
                ((VALID_SIZES.indexOf s.snowflake.size + 1) % VALID_SIZES.length) 0 }
          { s.segment with
              size := VALID_SIZES.getD
                ((VALID_SIZES.indexOf s.snowflake.size + 1) % VALID_SIZES.length) 0 } := rfl
  rw [hsf, clear_pixels_outside_eq_filter
      { s.snowflake with
          size := VALID_SIZES.getD
            ((VALID_SIZES.indexOf s.snowflake.size + 1) % VALID_SIZES.length) 0 }
      { s.segment with
          size := VALID_SIZES.getD
            ((VALID_SIZES.indexOf s.snowflake.size + 1) % VALID_SIZES.length) 0 }
      h, List.mem_filter] at he
  exact ⟨he.1, he.2⟩

/-- Concrete loop state used in the witness of claim C5: two stored pixels
with distinct object ids. -/
def c5_state : MainState ℝ :=
  { rotate := true
    segment := { radius := 200, size := 6, origin := (210, 325), centered_angle := 0 }
    snowflake :=
      { radius := 150, size := 6, origin := (600, 325), mirror := true,
        pixels := [(0, ⟨100, 0⟩, 1), (1, ⟨500, 0⟩, 1)], current_angle := 0 } }

/-- Witness for claim C5 at a concrete two-pixel state. -/
theorem c5_clear_pixels_outside_exact_witness :
    (pixel_ids ℝ c5_state.snowflake.pixels).Nodup
      ∧ ((c5_state.snowflake.clear_pixels_outside ℝ Real.pi c5_state.segment).pixels
            = c5_state.snowflake.pixels.filter (fun e =>
                c5_state.segment.contains_point ℝ Real.pi
                  (rescaled_point ℝ c5_state.segment c5_state.snowflake.radius e.2.1))
          ∧ ∀ e ∈ (tab_transition ℝ Real.pi c5_state).snowflake.pixels,
              e ∈ c5_state.snowflake.pixels
              ∧ (tab_transition ℝ Real.pi c5_state).segment.contains_point ℝ Real.pi
                  (rescaled_point ℝ (tab_transition ℝ Real.pi c5_state).segment
                    c5_state.snowflake.radius e.2.1) = true) :=
  ⟨by decide, c5_clear_pixels_outside_exact c5_state (by decide)⟩

/-! ### Claim C6: idempotence of the pruning -/

/-- Claim C6: applying `clear_pixels_outside(segment)` twice in a row yields
the same pixel map as applying it once. -/
theorem c6_clear_pixels_outside_idempotent (sf : Snowflake ℝ) (seg : SnowflakeSegment ℝ)
    (h : (pixel_ids ℝ sf.pixels).Nodup) :
    ((sf.clear_pixels_outside ℝ Real.pi seg).clear_pixels_outside ℝ Real.pi seg).pixels
      = (sf.clear_pixels_outside ℝ Real.pi seg).pixels := by
  have h2 : (pixel_ids ℝ (sf.clear_pixels_outside ℝ Real.pi seg).pixels).Nodup := by
    rw [clear_pixels_outside_eq_filter sf seg h]
    apply List.Nodup.sublist _ h
    exact (List.filter_sublist sf.pixels).map (fun e => e.1)
  rw [clear_pixels_outside_eq_filter _ _ h2]
  simp only [clear_pixels_outside_radius]
  rw [clear_pixels_outside_eq_filter sf seg h, List.filter_filter]
  apply List.filter_congr
  intro e _
  exact Bool.and_self _

/-- Concrete snowflake used in the witness of claim C6. -/
def c6_sf : Snowflake ℝ :=
  { radius := 150, size := 6, origin := (600, 325), mirror := true,
    pixels := [(0, ⟨100, 0⟩, 1), (1, ⟨500, 0⟩, 1)], current_angle := 0 }

/-- Concrete segment used in the witness of claim C6. -/
def c6_seg : SnowflakeSegment ℝ :=
  { radius := 200, size := 6, origin := (210, 325), centered_angle := 0 }

/-- Witness for claim C6 at a concrete two-pixel snowflake. -/
theorem c6_clear_pixels_outside_idempotent_witness :
    (pixel_ids ℝ c6_sf.pixels).Nodup
      ∧ ((c6_sf.clear_pixels_outside ℝ Real.pi c6_seg).clear_pixels_outside
            ℝ Real.pi c6_seg).pixels
          = (c6_sf.clear_pixels_outside ℝ Real.pi c6_seg).pixels :=
  ⟨by decide, c6_clear_pixels_outside_idempotent c6_sf c6_seg (by decide)⟩

/-! ### Claim C10: every stored pixel value is 1 -/

/-- Membership after a dict assignment: any entry either carries the written
value or was already present. -/
lemma mem_dict_set (px : List (PixelEntry ℝ)) (pid : ℕ) (p : PolarPoint ℝ) (v : ℤ)
    (e : PixelEntry ℝ) (he : e ∈ dict_set ℝ px pid p v) : e.2.2 = v ∨ e ∈ px := by
  unfold dict_set at he
  split at he
  · rcases List.mem_map.mp he with ⟨a, ha, rfl⟩
    cases hc : (a.1 == pid) with
    | true => left; simp [hc]
    | false => right; simpa [hc] using ha
  · rcases List.mem_append.mp he with hL | hR
    · right
      exact hL
    · left
      rw [List.mem_singleton.mp hR]

/-- In every reachable state of the main loop, every stored pixel value
equals 1 (the only `set_pixel` call site passes 1; all other transitions
only remove or keep entries). -/
lemma reachable_pixel_values (hypotf atan2f : ℝ → ℝ → ℝ) (s : MainState ℝ)
    (h : Reachable ℝ Real.pi hypotf atan2f s) :
    ∀ e ∈ s.snowflake.pixels, e.2.2 = 1 := by
  induction h with
  | init =>
    intro e he
    simp [initial_state] at he
  | step s t hs hst ih =>
    cases hst with
    | key_r => exact ih
    | key_m => exact ih
    | key_tab =>
      intro e he
      have hsub : (tab_transition ℝ Real.pi s).snowflake.pixels.Sublist
          s.snowflake.pixels := foldl_pop_sublist _ _
      exact ih e (hsub.subset he)
    | key_delete =>
      intro e he
      simp [Snowflake.clear_pixels] at he
    | mouse_inside pos pid hin hfresh =>
      intro e he
      rcases mem_dict_set _ _ _ _ e he with h1 | h1
      · exact h1
      · exact ih e h1
    | mouse_outside pos hout => exact ih
    | tick hrot => exact ih

/-- Claim C10: in every state reachable by the main loop, every value stored
in the snowflake's pixel map equals 1, so the background-color erasure
branch of the pixel-drawing color choice is never taken: the chosen color is
always `SNOWFLAKE_COLOR`. -/
theorem c10_pixel_values_always_one (s : MainState ℝ)
    (h : Reachable ℝ Real.pi (fun x y => Real.sqrt (x ^ 2 + y ^ 2))
      (fun yv xv => Complex.arg ⟨xv, yv⟩) s) :
    ∀ e ∈ s.snowflake.pixels, e.2.2 = 1 ∧ pixel_color e.2.2 = SNOWFLAKE_COLOR := by
  intro e he
  have h1 := reachable_pixel_values _ _ s h e he
  refine ⟨h1, ?_⟩
  rw [h1]
  rfl

/-- Witness for claim C10 at the initial state of the main loop. -/
theorem c10_pixel_values_always_one_witness :
    Reachable ℝ Real.pi (fun x y => Real.sqrt (x ^ 2 + y ^ 2))
        (fun yv xv => Complex.arg ⟨xv, yv⟩) (initial_state ℝ)
      ∧ ∀ e ∈ (initial_state ℝ).snowflake.pixels,
          e.2.2 = 1 ∧ pixel_color e.2.2 = SNOWFLAKE_COLOR :=
  ⟨Reachable.init, c10_pixel_values_always_one (initial_state ℝ) Reachable.init⟩

/-! ### Claim C8: coordinate round trip -/

/-- Truncation toward zero of an integer value is the identity. -/
lemma int_trunc_intCast (n : ℤ) : int_trunc ℝ ((n : ℤ) : ℝ) = n := by
  unfold int_trunc
  split_ifs with h
  · exact_mod_cast Int.floor_intCast n
  · have h2 : -((n : ℤ) : ℝ) = ((-n : ℤ) : ℝ) := by push_cast; ring
    rw [h2, Int.floor_intCast]
    ring

/-- Reducing an angle with the Python modulo by `2*pi` preserves its
cosine. -/
lemma cos_pyMod (t : ℝ) :
    Real.cos (pyMod ℝ t (RADIANS_IN_CIRCLE ℝ Real.pi)) = Real.cos t := by
  unfold pyMod RADIANS_IN_CIRCLE
  have h1 : t - 2 * Real.pi * (⌊t / (2 * Real.pi)⌋ : ℝ)
      = t - (⌊t / (2 * Real.pi)⌋ : ℝ) * (2 * Real.pi) := by ring
  rw [h1, Real.cos_sub_int_mul_two_pi]

/-- Reducing an angle with the Python modulo by `2*pi` preserves its sine. -/
lemma sin_pyMod (t : ℝ) :
    Real.sin (pyMod ℝ t (RADIANS_IN_CIRCLE ℝ Real.pi)) = Real.sin t := by
  unfold pyMod RADIANS_IN_CIRCLE
  have h1 : t - 2 * Real.pi * (⌊t / (2 * Real.pi)⌋ : ℝ)
      = t + ((-⌊t / (2 * Real.pi)⌋ : ℤ) : ℝ) * (2 * Real.pi) := by push_cast; ring
  rw [h1, Real.sin_add_int_mul_two_pi]

/-- The defining property of polar coordinates: `hypot` times the cosine
(resp. sine) of `atan2` recovers the rectangular components, including the
degenerate origin case. -/
lemma polar_cos_sin (a b : ℝ) :
    Real.sqrt (a ^ 2 + b ^ 2) * Real.cos (Complex.arg ⟨a, b⟩) = a
      ∧ Real.sqrt (a ^ 2 + b ^ 2) * Real.sin (Complex.arg ⟨a, b⟩) = b := by
  by_cases hz : (⟨a, b⟩ : ℂ) = 0
  · have ha : a = 0 := by simpa using (Complex.ext_iff.mp hz).1
    have hb : b = 0 := by simpa using (Complex.ext_iff.mp hz).2
    simp [ha, hb]
  · have habs : Complex.abs ⟨a, b⟩ = Real.sqrt (a ^ 2 + b ^ 2) := by
      rw [Complex.abs_apply, Complex.normSq_mk]
      have h2 : a * a + b * b = a ^ 2 + b ^ 2 := by ring
      rw [h2]
    have habs_ne : Complex.abs ⟨a, b⟩ ≠ 0 := by
      simpa using hz
    constructor
    · rw [← habs, Complex.cos_arg hz]
      show Complex.abs ⟨a, b⟩ * (a / Complex.abs ⟨a, b⟩) = a
      field_simp
    · rw [← habs, Complex.sin_arg]
      show Complex.abs ⟨a, b⟩ * (b / Complex.abs ⟨a, b⟩) = b
      field_simp

/-- Exact evaluation of `to_rectangular` on the output of the polar
conversion of the displacement `(a, b)`. -/
lemma to_rectangular_roundtrip_eval (a b : ℝ) (origin : Int × Int) :
    to_rectangular ℝ Real.cos Real.sin
        (pyMod ℝ (Complex.arg ⟨a, b⟩) (RADIANS_IN_CIRCLE ℝ Real.pi))
        (Real.sqrt (a ^ 2 + b ^ 2)) origin CARTESIAN_ORIGIN CARTESIAN_SIGNS
      = (int_trunc ℝ ((origin.1 : ℝ) + a),
         int_trunc ℝ (((SCREEN_HEIGHT : ℤ) : ℝ) - ((origin.2 : ℝ) + b))) := by
  unfold to_rectangular CARTESIAN_ORIGIN CARTESIAN_SIGNS
  rw [cos_pyMod, sin_pyMod, (polar_cos_sin a b).1, (polar_cos_sin a b).2]
  show (int_trunc ℝ ((((1 : Int), (-1 : Int)).1 : ℝ) * ((origin.1 : ℝ) + a)
          + (((0 : Int), SCREEN_HEIGHT).1 : ℝ)),
        int_trunc ℝ ((((1 : Int), (-1 : Int)).2 : ℝ) * ((origin.2 : ℝ) + b)
          + (((0 : Int), SCREEN_HEIGHT).2 : ℝ)))
      = (int_trunc ℝ ((origin.1 : ℝ) + a),
         int_trunc ℝ (((SCREEN_HEIGHT : ℤ) : ℝ) - ((origin.2 : ℝ) + b)))
  have e1 : ((((1 : Int), (-1 : Int)).1 : ℤ) : ℝ) * ((origin.1 : ℝ) + a)
        + ((((0 : Int), SCREEN_HEIGHT).1 : ℤ) : ℝ)
      = (origin.1 : ℝ) + a := by
    norm_num
  have e2 : ((((1 : Int), (-1 : Int)).2 : ℤ) : ℝ) * ((origin.2 : ℝ) + b)
        + ((((0 : Int), SCREEN_HEIGHT).2 : ℤ) : ℝ)
      = ((SCREEN_HEIGHT : ℤ) : ℝ) - ((origin.2 : ℝ) + b) := by
    norm_num
    ring
  rw [e1, e2]

/-- Amended claim C8: the program flips the y coordinate before converting
to polar (`mouse_y = SCREEN_HEIGHT - mouse_y`), and `to_rectangular` flips
it back through `CARTESIAN_SIGNS`.  For every integer screen point `(x, y)`
and every origin `O`, converting the flipped point with `from_rectangular`
relative to `O` and converting back with `to_rectangular` using
`polar_origin = O` yields exactly `(x, y)` (so in particular within the
claimed ±1); without the flip the y output is `SCREEN_HEIGHT - y` instead
of `y`. -/
theorem c8_roundtrip_with_flip (x y : ℤ) (origin : Int × Int) :
    to_rectangular ℝ Real.cos Real.sin
        (PolarPoint.from_rectangular ℝ Real.pi
          (fun av bv => Real.sqrt (av ^ 2 + bv ^ 2))
          (fun bv av => Complex.arg ⟨av, bv⟩)
          (x, SCREEN_HEIGHT - y) origin).theta
        (PolarPoint.from_rectangular ℝ Real.pi
          (fun av bv => Real.sqrt (av ^ 2 + bv ^ 2))
          (fun bv av => Complex.arg ⟨av, bv⟩)
          (x, SCREEN_HEIGHT - y) origin).radius
        origin CARTESIAN_ORIGIN CARTESIAN_SIGNS
      = (x, y) := by
  have hth : (PolarPoint.from_rectangular ℝ Real.pi
        (fun av bv => Real.sqrt (av ^ 2 + bv ^ 2))
        (fun bv av => Complex.arg ⟨av, bv⟩)
        (x, SCREEN_HEIGHT - y) origin).theta
      = pyMod ℝ (Complex.arg
          ⟨((x, SCREEN_HEIGHT - y).1 : ℝ) - (origin.1 : ℝ),
           ((x, SCREEN_HEIGHT - y).2 : ℝ) - (origin.2 : ℝ)⟩)
        (RADIANS_IN_CIRCLE ℝ Real.pi) := rfl
  have hrad : (PolarPoint.from_rectangular ℝ Real.pi
        (fun av bv => Real.sqrt (av ^ 2 + bv ^ 2))
        (fun bv av => Complex.arg ⟨av, bv⟩)
        (x, SCREEN_HEIGHT - y) origin).radius
      = Real.sqrt ((((x, SCREEN_HEIGHT - y).1 : ℝ) - (origin.1 : ℝ)) ^ 2
          + (((x, SCREEN_HEIGHT - y).2 : ℝ) - (origin.2 : ℝ)) ^ 2) := rfl
  rw [hth, hrad, to_rectangular_roundtrip_eval]
  have e1 : (origin.1 : ℝ) + (((x, SCREEN_HEIGHT - y).1 : ℝ) - (origin.1 : ℝ))
      = ((x : ℤ) : ℝ) := by ring
  have e2 : ((SCREEN_HEIGHT : ℤ) : ℝ)
        - ((origin.2 : ℝ) + (((x, SCREEN_HEIGHT - y).2 : ℝ) - (origin.2 : ℝ)))
      = ((y : ℤ) : ℝ) := by
    show ((SCREEN_HEIGHT : ℤ) : ℝ)
        - ((origin.2 : ℝ) + (((SCREEN_HEIGHT - y : ℤ) : ℝ) - (origin.2 : ℝ)))
      = ((y : ℤ) : ℝ)
    push_cast
    ring
  rw [e1, e2, int_trunc_intCast, int_trunc_intCast]

/-- Counterexample to claim C8 as stated (no y flip): the round trip of the
screen point `(0, 0)` relative to origin `(0, 0)` returns `(0, 650)` — the
y coordinate comes back reflected across `SCREEN_HEIGHT`, which is not
within ±1 of the input. -/
theorem c8_counterexample :
    ¬ (|(to_rectangular ℝ Real.cos Real.sin
            (PolarPoint.from_rectangular ℝ Real.pi
              (fun av bv => Real.sqrt (av ^ 2 + bv ^ 2))
              (fun bv av => Complex.arg ⟨av, bv⟩) (0, 0) (0, 0)).theta
            (PolarPoint.from_rectangular ℝ Real.pi
              (fun av bv => Real.sqrt (av ^ 2 + bv ^ 2))
              (fun bv av => Complex.arg ⟨av, bv⟩) (0, 0) (0, 0)).radius
            (0, 0) CARTESIAN_ORIGIN CARTESIAN_SIGNS).1| ≤ 1
        ∧ |(to_rectangular ℝ Real.cos Real.sin
            (PolarPoint.from_rectangular ℝ Real.pi
              (fun av bv => Real.sqrt (av ^ 2 + bv ^ 2))
              (fun bv av => Complex.arg ⟨av, bv⟩) (0, 0) (0, 0)).theta
            (PolarPoint.from_rectangular ℝ Real.pi
              (fun av bv => Real.sqrt (av ^ 2 + bv ^ 2))
              (fun bv av => Complex.arg ⟨av, bv⟩) (0, 0) (0, 0)).radius
            (0, 0) CARTESIAN_ORIGIN CARTESIAN_SIGNS).2| ≤ 1) := by
  intro h
  have hrad : (PolarPoint.from_rectangular ℝ Real.pi
        (fun av bv => Real.sqrt (av ^ 2 + bv ^ 2))
        (fun bv av => Complex.arg ⟨av, bv⟩) ((0 : ℤ), (0 : ℤ)) ((0 : ℤ), (0 : ℤ))).radius
      = 0 := by
    show Real.sqrt ((((0 : ℤ) : ℝ) - ((0 : ℤ) : ℝ)) ^ 2
        + (((0 : ℤ) : ℝ) - ((0 : ℤ) : ℝ)) ^ 2) = 0
    norm_num
  have hsnd : (to_rectangular ℝ Real.cos Real.sin
        (PolarPoint.from_rectangular ℝ Real.pi
          (fun av bv => Real.sqrt (av ^ 2 + bv ^ 2))
          (fun bv av => Complex.arg ⟨av, bv⟩) (0, 0) (0, 0)).theta
        (PolarPoint.from_rectangular ℝ Real.pi
          (fun av bv => Real.sqrt (av ^ 2 + bv ^ 2))
          (fun bv av => Complex.arg ⟨av, bv⟩) (0, 0) (0, 0)).radius
        (0, 0) CARTESIAN_ORIGIN CARTESIAN_SIGNS).2 = 650 := by
    unfold to_rectangular CARTESIAN_ORIGIN CARTESIAN_SIGNS SCREEN_HEIGHT
    rw [hrad]
    norm_num [int_trunc]
  rw [hsnd] at h
  have := h.2
  norm_num at this
